import Mathlib

/-
Verification of the natural-language specification of
Akronix/MediaWiki-Networks against its source (src/networkTools.py).

Python strings are modelled as lists of characters, Python ints and the
database's integer columns as Int, timestamps as Int.  Python functions
that can raise are modelled with Except.  The two regular-expression
substitutions of getSectionFromComment are modelled character by
character, following Python re semantics for the two concrete patterns
appearing in the source.
-/

/-- A Python string, modelled as its list of characters. -/
abbrev Str := List Char

/-- The Python errors that the modelled code paths can raise. -/
inductive PyErr where
  | typeError
deriving DecidableEq, Repr

/- ----------------------------------------------------------------
   getSectionFromComment (src/networkTools.py lines 98-103)

     comment = re.sub(r'\/\* (.*) \*\/.*', r'\1', comment)
     section = re.sub(r' \[[^]]*\]$', '', comment)
     return section
   ---------------------------------------------------------------- -/

/-- Does the string start with the opening delimiter of the first
pattern, the three characters slash, star, space. -/
def isOpen (s : Str) : Bool := s.take 3 == ['/', '*', ' ']

/-- Index of the last occurrence of the closing delimiter, the three
characters space, star, slash, in the given (newline-free) line.  The
first pattern's greedy group picks this last occurrence. -/
def lastClose : Str → Option Nat
  | [] => none
  | c :: rest =>
    match lastClose rest with
    | some j => some (j + 1)
    | none => if (c :: rest).take 3 == [' ', '*', '/'] then some 0 else none

/-- Given the text following an opening delimiter, return the matched
group and the remainder after the whole regex match, if the closing
delimiter occurs in the same line.  The group is everything up to the
last closing delimiter in the line (the greedy group cannot cross a
newline since dot does not match newline), and the trailing greedy dot
star consumes the rest of that line. -/
def findClose (t : Str) : Option (Str × Str) :=
  let line := t.takeWhile (fun ch => !(ch == '\n'))
  match lastClose line with
  | some j => some (line.take j, t.drop line.length)
  | none => none

/-- One fuel-indexed pass of Python re.sub with the first pattern,
replacing every non-overlapping leftmost match by its group.  Fuel is
the length of the string; every step consumes at least one character. -/
def sub1Fuel : Nat → Str → Str
  | 0, s => s
  | _ + 1, [] => []
  | fuel + 1, c :: rest =>
    if isOpen (c :: rest) then
      match findClose (rest.drop 2) with
      | some (g, after) => g ++ sub1Fuel fuel after
      | none => c :: sub1Fuel fuel rest
    else c :: sub1Fuel fuel rest

/-- Python re.sub of the first pattern (slash star space, greedy group,
space star slash, then greedy rest of line) with the group as
replacement. -/
def sub1 (s : Str) : Str := sub1Fuel s.length s

/-- Leftmost position p in the string such that position p holds a
space, position p+1 an opening square bracket, and no closing square
bracket occurs from position p+2 on.  This is where the second
pattern's match starts, given that the string already ends with a
closing square bracket. -/
def findPairNoRB : Str → Option Nat
  | [] => none
  | c :: rest =>
    if c = ' ' ∧ rest.head? = some '[' ∧ ']' ∉ rest.tail then some 0
    else (findPairNoRB rest).map (fun n => n + 1)

/-- Helper for the second substitution: body is the string with a
single final newline removed (the dollar anchor may match just before
it), tl is that removed newline, orig the original string. -/
def sub2Body (body tl orig : Str) : Str :=
  if body.getLast? = some ']' then
    match findPairNoRB body.dropLast with
    | some p => body.dropLast.take p ++ tl
    | none => orig
  else orig

/-- Python re.sub of the second pattern (space, opening bracket, any
characters other than a closing bracket, closing bracket, end of
string) with the empty replacement. -/
def sub2 (s : Str) : Str :=
  if s.getLast? = some '\n' then sub2Body s.dropLast ['\n'] s
  else sub2Body s [] s

/-- The two substitutions of getSectionFromComment applied to a string
argument. -/
def getSectionStr (s : Str) : Str := sub2 (sub1 s)

/-- getSectionFromComment as called on a possibly absent comment: the
first re.sub raises TypeError when the argument is Python None. -/
def getSectionFromComment : Option Str → Except PyErr Str
  | none => Except.error PyErr.typeError
  | some s => Except.ok (getSectionStr s)

/-- Remove trailing spaces. -/
def rtrimWS (s : Str) : Str := (s.reverse.dropWhile (fun c => c == ' ')).reverse

/-- Does the string carry a trailing bracket marker: it ends with a
closing square bracket and an opening one occurs before it. -/
def trailBr (s : Str) : Bool := s.getLast? == some ']' && s.dropLast.contains '['

/-- The text before the last opening square bracket of the trailing
marker. -/
def brPrefix (s : Str) : Str :=
  ((s.dropLast.reverse.dropWhile (fun c => !(c == '['))).drop 1).reverse

/-- Section-label extraction as the specification's words describe it
(spec section on extractSection; used only to compare the spec's
three-case description with the code): a leading marker yields the
text between the delimiters with trailing whitespace trimmed; else a
trailing bracket marker yields the text before it with trailing
whitespace trimmed; else, and for an absent or empty comment, the
no-label value. -/
def extractSection_spec : Option Str → Option Str
  | none => none
  | some s =>
    if s = [] then none
    else if s.take 3 = ['/', '*', ' '] then
      match lastClose (s.drop 3) with
      | some j => some (rtrimWS ((s.drop 3).take j))
      | none => if trailBr s then some (rtrimWS (brPrefix s)) else none
    else if trailBr s then some (rtrimWS (brPrefix s)) else none

/- ----------------------------------------------------------------
   The edit database (tables non_bot_edits, users, pages) and the
   query helpers of src/networkTools.py
   ---------------------------------------------------------------- -/

/-- One row of the non_bot_edits table, with the columns the queries
of networkTools.py read.  The comment column is modelled as text (a
NULL comment would raise TypeError inside getSectionFromComment). -/
structure EditRow where
  user_id : Int
  page_id : Int
  edit_time : Int
  page_category : Str
  page_name : Str
  user_name : Str
  comment : Str
deriving DecidableEq

/-- The database behind the shared psycopg2 connection. -/
structure DB where
  non_bot_edits : List EditRow
  users : List (Str × Int)
  pages : List (Str × Int)
deriving DecidableEq

/-- ORDER BY edit_time DESC, modelled as a stable insertion sort; the
SQL order among equal timestamps is unspecified, and the concrete
databases used below have distinct timestamps. -/
def sortDesc (l : List EditRow) : List EditRow :=
  List.insertionSort (fun a b => b.edit_time ≤ a.edit_time) l

/-- getPageEdits (lines 166-173): edits of a page strictly inside the
time window, most recent first. -/
def getPageEdits (db : DB) (pid t1 t2 : Int) : List EditRow :=
  sortDesc (db.non_bot_edits.filter
    (fun e => e.page_id == pid && decide (t1 < e.edit_time) && decide (e.edit_time < t2)))

/-- getEdits (lines 195-209, non-bot branch): edits of a user strictly
inside the time window; the query has no ORDER BY, so table order is
kept. -/
def getEdits (db : DB) (uid t1 t2 : Int) : List EditRow :=
  db.non_bot_edits.filter
    (fun e => e.user_id == uid && decide (t1 < e.edit_time) && decide (e.edit_time < t2))

/-- getUserID (lines 127-132): fetchone on the users table; some v
stands for the one-column row tuple, none for Python None. -/
def getUserID (db : DB) (name : Str) : Option Int :=
  ((db.users.filter (fun p => p.1 == name)).head?).map (fun p => p.2)

/-- getPageID (lines 134-139): fetchone on the pages table. -/
def getPageID (db : DB) (name : Str) : Option Int :=
  ((db.pages.filter (fun p => p.1 == name)).head?).map (fun p => p.2)

/-- getLastEditByUser (lines 141-151): fetchone of the user's edits on
the page before the given time, most recent first; some v stands for
the one-column row tuple. -/
def getLastEditByUser (db : DB) (uid pid t : Int) : Option Int :=
  ((sortDesc (db.non_bot_edits.filter
    (fun e => e.user_id == uid && e.page_id == pid && decide (e.edit_time < t)))).head?).map
    (fun e => e.edit_time)

/-- The loop of getRecentEditors (lines 159-163): collect the editors
of the most-recent-first candidate list, stopping at the first edit by
the current user. -/
def scanEditors (uid : Int) : List EditRow → List Int
  | [] => []
  | e :: rest => if e.user_id = uid then [] else e.user_id :: scanEditors uid rest

/-- getRecentEditors (lines 153-164); Python's set(uids) is modelled
as the duplicate-free list of first occurrences (the claims only use
membership and distinct-element counts, and Python set iteration order
is unspecified anyway). -/
def getRecentEditors (db : DB) (uid pid t1 t2 : Int) : List Int :=
  (scanEditors uid (getPageEdits db pid t1 t2)).dedup

/-- The per-candidate test of getComplexTalkers (line 87): Python
`currSec and currSec == origSec`, i.e. the extracted section is truthy
(a nonempty string) and equals the current edit's extracted section. -/
def secOK (origSec : Str) (e : EditRow) : Bool :=
  !(getSectionStr e.comment).isEmpty && getSectionStr e.comment == origSec

/-- The loop of getComplexTalkers (lines 84-93): a section match by
the current user breaks the scan; a section match by another user is
collected; a candidate whose section does not match is skipped without
stopping the scan. -/
def complexScan (uid : Int) (origSec : Str) : List EditRow → List Int
  | [] => []
  | e :: rest =>
    if secOK origSec e then
      if e.user_id = uid then [] else e.user_id :: complexScan uid origSec rest
    else complexScan uid origSec rest

/-- getComplexTalkers (lines 76-94). -/
def getComplexTalkers (db : DB) (uid pid : Int) (origComment : Str) (t1 t2 : Int) :
    List Int :=
  (complexScan uid (getSectionStr origComment) (getPageEdits db pid t1 t2)).dedup

/-- Python equality between a fetchone result (None or a one-column
row tuple) and an int: in Python both `None == i` and `(v,) == i` are
False, whatever v and i, so the test never succeeds. -/
def fetchEqInt : Option Int → Int → Bool
  | none, _ => false
  | some _, _ => false

/-- Python membership `fetched in set_of_ints` (lines 116 and 123):
the fetchone result is a row tuple or None while the set holds plain
ints, so every element comparison is a cross-type equality and the
membership test is always False. -/
def fetchMem (o : Option Int) (l : List Int) : Bool := l.any (fun x => fetchEqInt o x)

/-- getRecentEditors as called on line 122, where the page id comes
from a fetchone (a one-column tuple or None) and the start time from
getLastEditByUser (likewise): psycopg2 renders a one-element tuple as
a parenthesised scalar, so some v behaves as the value v, while None
makes the SQL comparison NULL and the query returns no rows. -/
def getRecentEditorsOpt (db : DB) (uid : Int) (pid start : Option Int) (t2 : Int) :
    List Int :=
  match pid, start with
  | some p, some s => getRecentEditors db uid p s t2
  | _, _ => []

/-- getUserTalkers (lines 106-125).  On line 124, `talkers |=
pageOwnerID` would raise TypeError since pageOwnerID is a row tuple,
not a set; it is modelled as the error branch. -/
def getUserTalkers (db : DB) (uid : Int) (userName : Str) (pid : Int) (pageName : Str)
    (editTime delta : Int) : Except PyErr (List Int) :=
  let talkers := getRecentEditors db uid pid (editTime - delta) editTime
  let pageOwner := pageName.drop 10
  let pageOwnerID := getUserID db pageOwner
  if userName ≠ pageOwner ∧ fetchMem pageOwnerID talkers = false then
    let usersPageName := ("User talk:").data ++ userName
    let userPageID := getPageID db usersPageName
    let startTime := getLastEditByUser db uid pid editTime
    let usersPageEditors := getRecentEditorsOpt db uid userPageID startTime editTime
    if fetchMem pageOwnerID usersPageEditors then Except.error PyErr.typeError
    else Except.ok talkers
  else Except.ok talkers

/- ----------------------------------------------------------------
   Claim C2: the owner edge of getUserTalkers
   ---------------------------------------------------------------- -/

def rowC : EditRow := ⟨3, 5, 4, [], ("User talk:B").data, ("C").data, []⟩

def rowA1 : EditRow := ⟨1, 5, 1, [], ("User talk:B").data, ("A").data, []⟩

def rowB : EditRow := ⟨20, 7, 4, [], ("User talk:A").data, ("B").data, []⟩

def db2 : DB :=
  ⟨[rowC, rowA1, rowB],
   [(("A").data, 1), (("B").data, 20), (("C").data, 3)],
   [(("User talk:A").data, 7), (("User talk:B").data, 5)]⟩

/- ----------------------------------------------------------------
   Claim C3: early stop of the reverse scans
   ---------------------------------------------------------------- -/

def rowSame : EditRow := ⟨1, 1, 3, [], [], [], ("/* other */").data⟩

def rowOther : EditRow := ⟨2, 1, 2, [], [], [], ("/* orig */").data⟩

def db3 : DB := ⟨[rowSame, rowOther], [], []⟩

/- ----------------------------------------------------------------
   The communication dictionaries (defaultdict(int)) and the three
   network builders getGlobalComm, getLocalComm, getObservations
   ---------------------------------------------------------------- -/

/-- A Python dict with int keys and int values, as an association list
in insertion order; a defaultdict(int) increment inserts a missing key
at the end with value 1. -/
abbrev Dict := List (Int × Int)

/-- commDict[k] += 1 on a defaultdict(int). -/
def dictIncr (k : Int) : Dict → Dict
  | [] => [(k, 1)]
  | (a, n) :: rest => if a = k then (a, n + 1) :: rest else (a, n) :: dictIncr k rest

/-- Key lookup; none when the key is absent. -/
def dictLookup (k : Int) : Dict → Option Int
  | [] => none
  | (a, n) :: rest => if a = k then some n else dictLookup k rest

/-- Lookup with default 0 (the accumulated weight of an absent pair). -/
def dictGet0 (k : Int) (d : Dict) : Int := (dictLookup k d).getD 0

/-- The inner loop shared by getGlobalComm (lines 35-37) and
getLocalComm (lines 71-73): every partner distinct from the focal user
and inside the user list gets one increment per edit. -/
def accumPartners (userList : List Int) (uid : Int) (d : Dict) (cps : List Int) : Dict :=
  cps.foldl (fun d2 cp => if cp ≠ uid ∧ cp ∈ userList then dictIncr cp d2 else d2) d

/-- The per-edit partner computation of getGlobalComm (lines 27-34). -/
def globalPartners (db : DB) (uid delta : Int) (globalCats : List Str)
    (complexPages : List Int) (e : EditRow) : List Int :=
  if e.page_category ∈ globalCats then
    if e.page_id ∈ complexPages then
      getComplexTalkers db uid e.page_id e.comment (e.edit_time - delta) e.edit_time
    else getRecentEditors db uid e.page_id (e.edit_time - delta) e.edit_time
  else []

/-- getGlobalComm (lines 21-38). -/
def getGlobalComm (db : DB) (uid : Int) (userList : List Int)
    (startTime endTime delta : Int) (globalCats : List Str) (complexPages : List Int) :
    Dict :=
  (getEdits db uid startTime endTime).foldl
    (fun d e => accumPartners userList uid d
      (globalPartners db uid delta globalCats complexPages e)) []

/-- The per-edit partner computation of getLocalComm (lines 65-70). -/
def localPartners (db : DB) (uid delta : Int) (userTalkCats contentTalkCats : List Str)
    (e : EditRow) : Except PyErr (List Int) :=
  if e.page_category ∈ userTalkCats then
    getUserTalkers db uid e.user_name e.page_id e.page_name e.edit_time delta
  else if e.page_category ∈ contentTalkCats then
    Except.ok (getRecentEditors db uid e.page_id (e.edit_time - delta) e.edit_time)
  else Except.ok []

/-- The loop of getLocalComm (lines 63-73), propagating a raise from
getUserTalkers. -/
def getLocalCommLoop (db : DB) (uid : Int) (userList : List Int) (delta : Int)
    (userTalkCats contentTalkCats : List Str) : List EditRow → Dict → Except PyErr Dict
  | [], d => Except.ok d
  | e :: rest, d =>
    match localPartners db uid delta userTalkCats contentTalkCats e with
    | Except.ok cps =>
      getLocalCommLoop db uid userList delta userTalkCats contentTalkCats rest
        (accumPartners userList uid d cps)
    | Except.error err => Except.error err

/-- getLocalComm (lines 58-74). -/
def getLocalComm (db : DB) (uid : Int) (userList : List Int)
    (startTime endTime delta : Int) (userTalkCats contentTalkCats : List Str) :
    Except PyErr Dict :=
  getLocalCommLoop db uid userList delta userTalkCats contentTalkCats
    (getEdits db uid startTime endTime) []

/-- getLastEditor (lines 247-257): user id of the most recent edit of
the page before the given time, or Python None when there is none. -/
def getLastEditor (db : DB) (pid t : Int) : Option Int :=
  ((sortDesc (db.non_bot_edits.filter
    (fun e => e.page_id == pid && decide (e.edit_time < t)))).head?).map
    (fun e => e.user_id)

/-- getObservations (lines 182-192).  When getLastEditor yields None,
Python's `observed != userID` is True but `observed in userList` is
False (None is not among the int user ids), so nothing is counted;
this is the none branch. -/
def getObservations (db : DB) (uid startTime endTime : Int) (userList : List Int) :
    Dict :=
  (getEdits db uid startTime endTime).foldl
    (fun d e =>
      match getLastEditor db e.page_id e.edit_time with
      | some v => if v ≠ uid ∧ v ∈ userList then dictIncr v d else d
      | none => d) []

def rowP2 : EditRow := ⟨2, 1, 2, ("g").data, [], [], []⟩

def rowP3 : EditRow := ⟨2, 1, 3, ("g").data, [], [], []⟩

def rowP5 : EditRow := ⟨1, 1, 5, ("g").data, [], [], []⟩

def rowP8 : EditRow := ⟨2, 1, 8, ("g").data, [], [], []⟩

def rowP9 : EditRow := ⟨1, 1, 9, ("g").data, [], [], []⟩

def db7 : DB := ⟨[rowP2, rowP3, rowP5, rowP8, rowP9], [], []⟩

/- ----------------------------------------------------------------
   networkDictToMatrix and listsToMatrix (lines 321-351),
   makeWatchDict (lines 260-274)
   ---------------------------------------------------------------- -/

/-- A network dictionary, watcher to (editor to count): association
lists in insertion order (keys of the Python dicts produced by the
builders above are unique). -/
abbrev NDict := List (Int × Dict)

/-- Python `nDict[i]` on the outer dictionary. -/
def ndictFind (k : Int) : NDict → Option Dict
  | [] => none
  | (a, d) :: rest => if a = k then some d else ndictFind k rest

/-- The combined test and lookup `i in nDict and j in nDict[i]` (line
333): some v exactly when i is a key of nDict and j a key of nDict[i],
with v the stored count nDict[i][j]. -/
def innerLookup (nd : NDict) (i j : Int) : Option Int :=
  match ndictFind i nd with
  | some d => dictLookup j d
  | none => none

/-- Python str(count) for the non-dichotomized branch (line 337). -/
def intToStr (v : Int) : Str :=
  if v < 0 then '-' :: Nat.toDigits 10 v.natAbs else Nat.toDigits 10 v.toNat

/-- One matrix cell (lines 333-339). -/
def entryStr (nd : NDict) (cutoff : Int) (dichotomize : Bool) (i j : Int) : Str :=
  match innerLookup nd i j with
  | some v => if cutoff ≤ v then (if dichotomize then ['1'] else intToStr v) else ['0']
  | none => ['0']

/-- sorted(nDict) (line 328): the keys of the dictionary in ascending
order (keys of a Python dict are unique, hence the dedup). -/
def sortedKeys (nd : NDict) : List Int :=
  List.insertionSort (fun a b => a ≤ b) (nd.map (fun p => p.1)).dedup

/-- The row concatenation of listsToMatrix (lines 348-349): every
entry followed by one space. -/
def rowConcat (l : List Str) : Str := l.foldl (fun acc i => acc ++ i ++ [' ']) []

/-- One output row (line 350): the concatenation with its final
character (the trailing space) removed, then a newline. -/
def rowString (l : List Str) : Str := (rowConcat l).dropLast ++ ['\n']

/-- listsToMatrix (lines 343-351). -/
def listsToMatrix (lists : List (List Str)) : Str :=
  lists.foldl (fun acc l => acc ++ rowString l) []

/-- networkDictToMatrix (lines 321-341): an empty (falsy) node list is
replaced by the sorted keys of the dictionary. -/
def networkDictToMatrix (nd : NDict) (nodeList : List Int) (cutoff : Int)
    (dichotomize : Bool) : Str :=
  let nodes := if nodeList = [] then sortedKeys nd else nodeList
  listsToMatrix (nodes.map (fun i => nodes.map (fun j =>
    entryStr nd cutoff dichotomize i j)))

/-- Splitting a string at every occurrence of a character: n
separators yield n+1 parts (used only to state the matrix-shape
claims). -/
def splitOnChar (c : Char) : Str → List Str
  | [] => [[]]
  | a :: rest =>
    let r := splitOnChar c rest
    if a = c then [] :: r else (a :: r.headD []) :: r.tail

/-- The entries of a row joined by single spaces. -/
def spaceSep : List Str → Str
  | [] => []
  | [t] => t
  | t :: ts => t ++ ' ' :: spaceSep ts

/-- The watch dictionary of makeWatchDict, page to watching users in
insertion order. -/
abbrev WDict := List (Str × List Str)

/-- Key lookup on the watch dictionary. -/
def wdictLookup (p : Str) : WDict → Option (List Str)
  | [] => none
  | (q, l) :: rest => if q = p then some l else wdictLookup p rest

/-- The update of makeWatchDict (lines 269-273): append the watcher if
the page is already present, else insert the page with one watcher. -/
def wdictAdd (page u : Str) : WDict → WDict
  | [] => [(page, [u])]
  | (q, l) :: rest =>
    if q = page then (q, l ++ [u]) :: rest else (q, l) :: wdictAdd page u rest

/-- makeWatchDict (lines 260-274) on the parsed TSV rows (user,
namespace, page), all string fields: exactly the rows whose namespace
field is the string "106" are kept. -/
def makeWatchDict (rows : List (Str × Str × Str)) : WDict :=
  rows.foldl (fun d r => if r.2.1 = ("106").data then wdictAdd r.2.2 r.1 d else d) []

/-- The watchers accumulated for page p: the user fields of the rows
whose namespace field is the string "106" and whose page field is p. -/
def watchAcc (p : Str) (rows : List (Str × Str × Str)) : List Str :=
  (rows.filter (fun r => r.2.1 == ("106").data && r.2.2 == p)).map (fun r => r.1)

def nd6 : NDict := [(1, [(1, 3), (2, 5)])]

/- ----------------------------------------------------------------
   Helper lemmas about the two substitutions
   ---------------------------------------------------------------- -/

theorem sub1Fuel_nil (f : Nat) : sub1Fuel f [] = [] := by
  cases f <;> rfl

theorem isOpen_eq_false_of_not_star (s : Str) (h : '*' ∉ s) : isOpen s = false := by
  unfold isOpen
  rw [beq_eq_false_iff_ne]
  intro he
  apply h
  have hm : '*' ∈ s.take 3 := by rw [he]; simp
  exact List.take_subset 3 s hm

theorem sub1Fuel_id_of_not_star (f : Nat) (s : Str) (h : '*' ∉ s) :
    sub1Fuel f s = s := by
  induction f generalizing s with
  | zero => rfl
  | succ n ih =>
    match s with
    | [] => rfl
    | c :: rest =>
      have hop : isOpen (c :: rest) = false := isOpen_eq_false_of_not_star _ h
      have hrest : '*' ∉ rest := fun hm => h (List.mem_cons_of_mem _ hm)
      simp [sub1Fuel, hop, ih rest hrest]

theorem sub1_id_of_not_star (s : Str) (h : '*' ∉ s) : sub1 s = s :=
  sub1Fuel_id_of_not_star _ s h

theorem findPairNoRB_none_of_not_lbracket (l : Str) (h : '[' ∉ l) :
    findPairNoRB l = none := by
  induction l with
  | nil => rfl
  | cons c rest ih =>
    have hc : ¬ (c = ' ' ∧ rest.head? = some '[' ∧ ']' ∉ rest.tail) := by
      rintro ⟨-, hh, -⟩
      have : '[' ∈ rest := by
        cases rest with
        | nil => simp at hh
        | cons a t =>
          simp at hh
          simp [hh]
      exact h (List.mem_cons_of_mem _ this)
    have hrest : '[' ∉ rest := fun hm => h (List.mem_cons_of_mem _ hm)
    simp [findPairNoRB, hc, ih hrest]

theorem sub2Body_orig_of_not_lbracket (body tl orig : Str) (h : '[' ∉ body) :
    sub2Body body tl orig = orig := by
  unfold sub2Body
  by_cases hl : body.getLast? = some ']'
  · have hsub : '[' ∉ body.dropLast := fun hm =>
      h ((List.dropLast_sublist body).subset hm)
    simp [hl, findPairNoRB_none_of_not_lbracket _ hsub]
  · simp [hl]

theorem sub2_id_of_not_lbracket (s : Str) (h : '[' ∉ s) : sub2 s = s := by
  unfold sub2
  by_cases hn : s.getLast? = some '\n'
  · have hsub : '[' ∉ s.dropLast := fun hm => h ((List.dropLast_sublist s).subset hm)
    simp [hn, sub2Body_orig_of_not_lbracket _ _ _ hsub]
  · simp [hn, sub2Body_orig_of_not_lbracket _ _ _ h]

theorem lastClose_append_close (lbl : Str) :
    lastClose (lbl ++ [' ', '*', '/']) = some lbl.length := by
  induction lbl with
  | nil => rfl
  | cons c rest ih =>
    rw [List.cons_append]
    unfold lastClose
    rw [ih]
    simp

theorem takeWhile_ne_newline (l : Str) (h : '\n' ∉ l) :
    l.takeWhile (fun ch => !(ch == '\n')) = l := by
  induction l with
  | nil => rfl
  | cons c rest ih =>
    have hc : c ≠ '\n' := fun he => h (by simp [he])
    have hcb : (c == '\n') = false := beq_eq_false_iff_ne.2 hc
    have hrest : '\n' ∉ rest := fun hm => h (List.mem_cons_of_mem _ hm)
    simp [List.takeWhile, hcb, ih hrest]

theorem sub1Fuel_open_close (f : Nat) (lbl : Str) (h : '\n' ∉ lbl) :
    sub1Fuel (f + 1) ('/' :: '*' :: ' ' :: (lbl ++ [' ', '*', '/'])) = lbl := by
  have hop : isOpen ('/' :: '*' :: ' ' :: (lbl ++ [' ', '*', '/'])) = true := by
    simp [isOpen, List.take]
  have hnl : '\n' ∉ lbl ++ [' ', '*', '/'] := by
    intro hm
    rcases List.mem_append.1 hm with hm | hm
    · exact h hm
    · simp at hm
  have hline : (lbl ++ [' ', '*', '/']).takeWhile (fun ch => !(ch == '\n'))
      = lbl ++ [' ', '*', '/'] := takeWhile_ne_newline _ hnl
  have hfind : findClose ((('*' :: ' ' :: (lbl ++ [' ', '*', '/'])) : Str).drop 2)
      = some (lbl, []) := by
    show findClose (lbl ++ [' ', '*', '/']) = some (lbl, [])
    unfold findClose
    simp only [hline, lastClose_append_close]
    rw [List.take_left, List.drop_length]
  simp only [sub1Fuel, hop, if_true, hfind, sub1Fuel_nil, List.append_nil]

theorem sub1_open_close (lbl : Str) (h : '\n' ∉ lbl) :
    sub1 ('/' :: '*' :: ' ' :: (lbl ++ [' ', '*', '/'])) = lbl := by
  unfold sub1
  have hl : ('/' :: '*' :: ' ' :: (lbl ++ [' ', '*', '/'])).length
      = (lbl.length + 5) + 1 := by
    simp
  rw [hl]
  exact sub1Fuel_open_close _ lbl h

theorem findPairNoRB_boundary (pre inner : Str) (hp : '[' ∉ pre) (hi : ']' ∉ inner) :
    findPairNoRB (pre ++ ' ' :: '[' :: inner) = some pre.length := by
  induction pre with
  | nil =>
    simp [findPairNoRB, hi]
  | cons c rest ih =>
    have hrest : '[' ∉ rest := fun hm => hp (List.mem_cons_of_mem _ hm)
    have hc : ¬ (c = ' ' ∧ (rest ++ ' ' :: '[' :: inner).head? = some '['
        ∧ ']' ∉ (rest ++ ' ' :: '[' :: inner).tail) := by
      rintro ⟨-, hh, -⟩
      cases rest with
      | nil => simp at hh
      | cons a t =>
        simp at hh
        exact hp (by simp [hh])
    rw [List.cons_append]
    unfold findPairNoRB
    rw [if_neg hc, ih hrest]
    rfl

theorem sub2_trailing_bracket (pre inner : Str) (hp1 : '[' ∉ pre) (hi1 : ']' ∉ inner) :
    sub2 (pre ++ ' ' :: '[' :: (inner ++ [']'])) = pre := by
  have hs : pre ++ ' ' :: '[' :: (inner ++ [']'])
      = (pre ++ ' ' :: '[' :: inner) ++ [']'] := by simp
  rw [hs]
  unfold sub2
  rw [List.getLast?_concat]
  have hne : ¬ (some ']' = some '\n') := by decide
  rw [if_neg hne]
  unfold sub2Body
  rw [List.getLast?_concat, if_pos rfl, List.dropLast_concat,
    findPairNoRB_boundary pre inner hp1 hi1]
  simp [List.take_left]

/- ----------------------------------------------------------------
   Claims C1 and C8: section-label extraction
   ---------------------------------------------------------------- -/

/-- C1 counterexample: at the concrete comment string of five letters
with no marker of either kind, the three-case extraction the claim
describes yields the no-label value, while the code returns the
comment itself unchanged, a present nonempty label. -/
theorem C1_counterexample :
    extractSection_spec (some (("hello").data)) = none ∧
    getSectionFromComment (some (("hello").data)) = Except.ok (("hello").data) := by
  exact ⟨by decide, rfl⟩

/-- C1 (amended): section-label extraction applies the two regex
substitutions in sequence and never produces a distinguished no-label
value: a comment containing no star and no opening bracket is returned
unchanged; the empty comment yields the empty string; an absent
comment raises TypeError instead of yielding the no-label value; a
comment consisting of a slash-star-space marker, a newline-free and
bracket-free label, and a space-star-slash closer yields exactly the
label between the single-space delimiters; and a comment of the shape
pre, space, open bracket, inner, close bracket (with stars and
brackets absent from pre and inner) yields exactly pre, with no
further whitespace trimming. -/
theorem C1_theorem :
    (∀ s : Str, '*' ∉ s → '[' ∉ s → getSectionFromComment (some s) = Except.ok s)
    ∧ getSectionFromComment (some []) = Except.ok []
    ∧ getSectionFromComment none = Except.error PyErr.typeError
    ∧ (∀ lbl : Str, '\n' ∉ lbl → '[' ∉ lbl →
        getSectionFromComment (some ('/' :: '*' :: ' ' :: (lbl ++ [' ', '*', '/'])))
          = Except.ok lbl)
    ∧ (∀ pre inner : Str, '*' ∉ pre → '[' ∉ pre → '*' ∉ inner → ']' ∉ inner →
        getSectionFromComment (some (pre ++ ' ' :: '[' :: (inner ++ [']'])))
          = Except.ok pre) := by
  refine ⟨?_, rfl, rfl, ?_, ?_⟩
  · intro s h1 h2
    simp [getSectionFromComment, getSectionStr, sub1_id_of_not_star s h1,
      sub2_id_of_not_lbracket s h2]
  · intro lbl h1 h2
    simp [getSectionFromComment, getSectionStr, sub1_open_close lbl h1,
      sub2_id_of_not_lbracket lbl h2]
  · intro pre inner h1 h2 h3 h4
    have hstar : '*' ∉ pre ++ ' ' :: '[' :: (inner ++ [']']) := by
      intro hm
      rcases List.mem_append.1 hm with hm | hm
      · exact h1 hm
      · simp at hm
        exact h3 hm
    simp [getSectionFromComment, getSectionStr, sub1_id_of_not_star _ hstar,
      sub2_trailing_bracket pre inner h2 h4]

/-- C1 witness: the amended theorem evaluated at concrete comments of
each shape. -/
theorem C1_witness :
    getSectionFromComment (some (("hi").data)) = Except.ok (("hi").data) ∧
    getSectionFromComment (some ('/' :: '*' :: ' ' :: ((("sec").data) ++ [' ', '*', '/'])))
      = Except.ok (("sec").data) ∧
    getSectionFromComment (some ((("pre").data) ++ ' ' :: '[' :: ((("2020").data) ++ [']'])))
      = Except.ok (("pre").data) :=
  ⟨C1_theorem.1 _ (by decide) (by decide),
   C1_theorem.2.2.2.1 _ (by decide) (by decide),
   C1_theorem.2.2.2.2 _ _ (by decide) (by decide) (by decide) (by decide)⟩

/-- C8 counterexample: at the absent comment (Python None) the first
re.sub call raises TypeError, so extraction does not return normally. -/
theorem C8_counterexample :
    getSectionFromComment none = Except.error PyErr.typeError := rfl

/-- C8 (amended): for every string value of the comment field,
including the empty string, section-label extraction returns normally
(the two substitutions are total on strings); the absent value (None)
is not degraded to a no-label result but raises TypeError. -/
theorem C8_theorem :
    (∀ s : Str, ∃ t : Str, getSectionFromComment (some s) = Except.ok t) ∧
    getSectionFromComment (some []) = Except.ok [] :=
  ⟨fun s => ⟨getSectionStr s, rfl⟩, rfl⟩

theorem fetchEqInt_false (o : Option Int) (x : Int) : fetchEqInt o x = false := by
  cases o <;> rfl

theorem fetchMem_false (o : Option Int) (l : List Int) : fetchMem o l = false := by
  simp [fetchMem, fetchEqInt_false]

/-- C2 counterexample: user 1 (named A) edits page 5, the user-talk
page of user 20 (named B), whose owner differs from the editor; B has
even recently edited A's own talk page (page 7).  Yet the returned
partner set is exactly the windowed recent editors of page 5, namely
user 3, and no editor-to-owner edge toward 20 is proposed. -/
theorem C2_counterexample :
    getUserID db2 (("B").data) = some 20 ∧
    (20 : Int) ∈ getRecentEditors db2 1 7 1 5 ∧
    getUserTalkers db2 1 (("A").data) 5 (("User talk:B").data) 5 5 = Except.ok [3] ∧
    (20 : Int) ∉ ([3] : List Int) := by
  exact ⟨rfl, by decide, rfl, by decide⟩

/-- C2 (amended): getUserTalkers never proposes the editor-to-owner
edge: the owner's id is fetched as a one-column row tuple and compared
against plain integer ids, so both membership tests on it are always
False, and the function always returns exactly the windowed recent
editors of the edited page. -/
theorem C2_theorem (db : DB) (uid : Int) (userName : Str) (pid : Int) (pageName : Str)
    (editTime delta : Int) :
    getUserTalkers db uid userName pid pageName editTime delta
      = Except.ok (getRecentEditors db uid pid (editTime - delta) editTime) := by
  simp [getUserTalkers, fetchMem_false]

/-- C3 counterexample: the most recent candidate edit of page 1 is by
the current editor (user 1) but in a different section, so the
section-filtered scan does not stop there: user 2, whose only
qualifying edit lies beyond that point, is still returned. -/
theorem C3_counterexample :
    (getPageEdits db3 1 0 10).map (fun e => e.user_id) = [1, 2] ∧
    getComplexTalkers db3 1 1 (("/* orig */").data) 0 10 = [2] := by
  exact ⟨by decide, by decide⟩

/-- C3 (amended): in the plain recent-editors scan, the first
candidate by the current editor stops the scan, so exactly the editors
of the strictly more recent candidates are returned; in the
section-filtered scan of getComplexTalkers the stop happens only at
the first candidate that both matches the current edit's section and
is by the current editor, and same-editor candidates whose section
does not match are skipped without stopping the scan. -/
theorem C3_theorem :
    (∀ uid : Int, ∀ rows : List EditRow,
      scanEditors uid rows
        = (rows.takeWhile (fun e => !(e.user_id == uid))).map (fun e => e.user_id))
    ∧ (∀ db : DB, ∀ uid pid t1 t2 : Int,
      getRecentEditors db uid pid t1 t2
        = (((getPageEdits db pid t1 t2).takeWhile (fun e => !(e.user_id == uid))).map
            (fun e => e.user_id)).dedup)
    ∧ (∀ uid : Int, ∀ origSec : Str, ∀ rows : List EditRow,
      complexScan uid origSec rows
        = ((rows.takeWhile (fun e => !(secOK origSec e && e.user_id == uid))).filter
            (secOK origSec)).map (fun e => e.user_id)) := by
  have h1 : ∀ uid : Int, ∀ rows : List EditRow,
      scanEditors uid rows
        = (rows.takeWhile (fun e => !(e.user_id == uid))).map (fun e => e.user_id) := by
    intro uid rows
    induction rows with
    | nil => rfl
    | cons e rest ih =>
      by_cases h : e.user_id = uid
      · have hb : (e.user_id == uid) = true := beq_iff_eq.2 h
        simp [scanEditors, h, List.takeWhile_cons, hb]
      · have hb : (e.user_id == uid) = false := beq_eq_false_iff_ne.2 h
        simp [scanEditors, h, List.takeWhile_cons, hb, ih]
  have h3 : ∀ uid : Int, ∀ origSec : Str, ∀ rows : List EditRow,
      complexScan uid origSec rows
        = ((rows.takeWhile (fun e => !(secOK origSec e && e.user_id == uid))).filter
            (secOK origSec)).map (fun e => e.user_id) := by
    intro uid origSec rows
    induction rows with
    | nil => rfl
    | cons e rest ih =>
      cases hs : secOK origSec e with
      | false =>
        have hb : (secOK origSec e && (e.user_id == uid)) = false := by simp [hs]
        simp [complexScan, hs, List.takeWhile_cons, hb, List.filter_cons, ih]
      | true =>
        by_cases h : e.user_id = uid
        · have hb : (secOK origSec e && (e.user_id == uid)) = true := by
            simp [hs, beq_iff_eq.2 h]
          simp [complexScan, hs, h, List.takeWhile_cons, hb]
        · have hb : (secOK origSec e && (e.user_id == uid)) = false := by
            simp [hs, beq_eq_false_iff_ne.2 h]
          simp [complexScan, hs, h, List.takeWhile_cons, hb, List.filter_cons, ih]
  refine ⟨h1, ?_, h3⟩
  intro db uid pid t1 t2
  rw [getRecentEditors, h1]

/- ----------------------------------------------------------------
   Claim C4: the section filter of getComplexTalkers
   ---------------------------------------------------------------- -/

theorem secOK_spec (origSec : Str) (e : EditRow) (h : secOK origSec e = true) :
    getSectionStr e.comment ≠ [] ∧ getSectionStr e.comment = origSec := by
  unfold secOK at h
  rw [Bool.and_eq_true] at h
  constructor
  · intro he
    rw [he] at h
    simp at h
  · exact beq_iff_eq.1 h.2

theorem secOK_empty_orig (e : EditRow) : secOK [] e = false := by
  cases h : getSectionStr e.comment with
  | nil => simp [secOK, h]
  | cons a t => simp [secOK, h]

theorem complexScan_mem (uid : Int) (origSec : Str) (rows : List EditRow) (v : Int)
    (hv : v ∈ complexScan uid origSec rows) :
    ∃ e, e ∈ rows ∧ e.user_id = v ∧ getSectionStr e.comment ≠ []
      ∧ getSectionStr e.comment = origSec := by
  induction rows with
  | nil => simp [complexScan] at hv
  | cons e rest ih =>
    by_cases hs : secOK origSec e = true
    · by_cases h : e.user_id = uid
      · rw [complexScan, if_pos hs, if_pos h] at hv
        simp at hv
      · rw [complexScan, if_pos hs, if_neg h] at hv
        rcases List.mem_cons.1 hv with hv | hv
        · exact ⟨e, List.mem_cons_self e rest, hv.symm, (secOK_spec origSec e hs).1,
            (secOK_spec origSec e hs).2⟩
        · obtain ⟨e', he1, he2, he3, he4⟩ := ih hv
          exact ⟨e', List.mem_cons_of_mem e he1, he2, he3, he4⟩
    · rw [complexScan, if_neg hs] at hv
      obtain ⟨e', he1, he2, he3, he4⟩ := ih hv
      exact ⟨e', List.mem_cons_of_mem e he1, he2, he3, he4⟩

theorem complexScan_empty_orig (uid : Int) (rows : List EditRow) :
    complexScan uid [] rows = [] := by
  induction rows with
  | nil => rfl
  | cons e rest ih =>
    rw [complexScan, if_neg (by simp [secOK_empty_orig]), ih]

/-- C4: when section filtering is in effect (a complex page), a
candidate prior edit is counted only when its extracted section label
is present (a nonempty string under Python truthiness) and equal to
the current edit's extracted label; and when the current edit's label
is absent (extraction yields the empty string) no candidate ever
matches, so in particular both-absent is a non-match. -/
theorem C4_theorem :
    (∀ db : DB, ∀ uid pid : Int, ∀ origComment : Str, ∀ t1 t2 v : Int,
      v ∈ getComplexTalkers db uid pid origComment t1 t2 →
      ∃ e, e ∈ getPageEdits db pid t1 t2 ∧ e.user_id = v ∧
        getSectionStr e.comment ≠ [] ∧
        getSectionStr e.comment = getSectionStr origComment)
    ∧ (∀ db : DB, ∀ uid pid : Int, ∀ origComment : Str, ∀ t1 t2 : Int,
      getSectionStr origComment = [] →
      getComplexTalkers db uid pid origComment t1 t2 = []) := by
  constructor
  · intro db uid pid origComment t1 t2 v hv
    rw [getComplexTalkers, List.mem_dedup] at hv
    exact complexScan_mem uid (getSectionStr origComment) _ v hv
  · intro db uid pid origComment t1 t2 h
    rw [getComplexTalkers, h, complexScan_empty_orig]
    rfl

/-- C4 witness: the membership direction applied to user 2's matching
edit in the concrete database db3, and the empty-label case applied to
the empty comment. -/
theorem C4_witness :
    (∃ e, e ∈ getPageEdits db3 1 0 10 ∧ e.user_id = 2 ∧
      getSectionStr e.comment ≠ [] ∧
      getSectionStr e.comment = getSectionStr (("/* orig */").data)) ∧
    getComplexTalkers db3 1 1 [] 0 10 = [] :=
  ⟨C4_theorem.1 db3 1 1 (("/* orig */").data) 0 10 2 (by decide),
   C4_theorem.2 db3 1 1 [] 0 10 rfl⟩

theorem dictLookup_dictIncr_ne (k v : Int) (d : Dict) (h : v ≠ k) :
    dictLookup v (dictIncr k d) = dictLookup v d := by
  have hk : k ≠ v := fun he => h he.symm
  induction d with
  | nil => simp [dictIncr, dictLookup, hk]
  | cons p rest ih =>
    obtain ⟨a, n⟩ := p
    by_cases hak : a = k
    · subst hak
      simp [dictIncr, dictLookup, hk]
    · simp [dictIncr, hak, dictLookup, ih]

theorem dictGet0_dictIncr_self (k : Int) (d : Dict) :
    dictGet0 k (dictIncr k d) = dictGet0 k d + 1 := by
  induction d with
  | nil => simp [dictIncr, dictLookup, dictGet0]
  | cons p rest ih =>
    obtain ⟨a, n⟩ := p
    by_cases hak : a = k
    · subst hak
      simp [dictIncr, dictLookup, dictGet0]
    · simp only [dictGet0, dictIncr, if_neg hak, dictLookup] at ih ⊢
      exact ih

theorem dictGet0_accumPartners (userList : List Int) (uid v : Int) (d : Dict)
    (cps : List Int) (hnd : cps.Nodup) :
    dictGet0 v (accumPartners userList uid d cps)
      = dictGet0 v d + (if v ∈ cps ∧ v ≠ uid ∧ v ∈ userList then 1 else 0) := by
  induction cps generalizing d with
  | nil => simp [accumPartners]
  | cons cp rest ih =>
    have hcp : cp ∉ rest := (List.nodup_cons.1 hnd).1
    have hnd2 : rest.Nodup := (List.nodup_cons.1 hnd).2
    have hstep : accumPartners userList uid d (cp :: rest)
        = accumPartners userList uid
            (if cp ≠ uid ∧ cp ∈ userList then dictIncr cp d else d) rest := rfl
    rw [hstep, ih _ hnd2]
    by_cases hv : v = cp
    · subst hv
      have hr : ¬ (v ∈ rest ∧ v ≠ uid ∧ v ∈ userList) := fun hh => hcp hh.1
      rw [if_neg hr]
      by_cases hcond : v ≠ uid ∧ v ∈ userList
      · rw [if_pos hcond, dictGet0_dictIncr_self,
          if_pos ⟨List.mem_cons_self v rest, hcond⟩]
        omega
      · rw [if_neg hcond, if_neg (fun hh => hcond hh.2)]
    · have hl : dictGet0 v (if cp ≠ uid ∧ cp ∈ userList then dictIncr cp d else d)
          = dictGet0 v d := by
        by_cases hcond : cp ≠ uid ∧ cp ∈ userList
        · rw [if_pos hcond]
          unfold dictGet0
          rw [dictLookup_dictIncr_ne cp v d hv]
        · rw [if_neg hcond]
      rw [hl]
      have hiff : (v ∈ cp :: rest ∧ v ≠ uid ∧ v ∈ userList)
          ↔ (v ∈ rest ∧ v ≠ uid ∧ v ∈ userList) := by
        simp [List.mem_cons, hv]
      rw [if_congr hiff rfl rfl]

theorem dictLookup_uid_accumPartners (userList : List Int) (uid : Int) (d : Dict)
    (cps : List Int) (h : dictLookup uid d = none) :
    dictLookup uid (accumPartners userList uid d cps) = none := by
  induction cps generalizing d with
  | nil => exact h
  | cons cp rest ih =>
    have hstep : accumPartners userList uid d (cp :: rest)
        = accumPartners userList uid
            (if cp ≠ uid ∧ cp ∈ userList then dictIncr cp d else d) rest := rfl
    rw [hstep]
    apply ih
    by_cases hcond : cp ≠ uid ∧ cp ∈ userList
    · rw [if_pos hcond, dictLookup_dictIncr_ne cp uid d (fun he => hcond.1 he.symm)]
      exact h
    · rw [if_neg hcond]
      exact h

theorem globalPartners_nodup (db : DB) (uid delta : Int) (gc : List Str)
    (cpx : List Int) (e : EditRow) : (globalPartners db uid delta gc cpx e).Nodup := by
  by_cases h1 : e.page_category ∈ gc
  · by_cases h2 : e.page_id ∈ cpx
    · simp [globalPartners, h1, h2, getComplexTalkers, List.nodup_dedup]
    · simp [globalPartners, h1, h2, getRecentEditors, List.nodup_dedup]
  · simp [globalPartners, h1]

theorem dictGet0_globalFold (db : DB) (uid delta : Int) (gc : List Str)
    (cpx : List Int) (userList : List Int) (v : Int) (hv1 : v ≠ uid)
    (hv2 : v ∈ userList) (edits : List EditRow) : ∀ d : Dict,
    dictGet0 v (edits.foldl (fun d2 e => accumPartners userList uid d2
        (globalPartners db uid delta gc cpx e)) d)
      = dictGet0 v d + ((edits.filter (fun e =>
          (globalPartners db uid delta gc cpx e).contains v)).length : Int) := by
  induction edits with
  | nil => intro d; simp
  | cons e rest ih =>
    intro d
    rw [List.foldl_cons, ih]
    rw [dictGet0_accumPartners userList uid v d _
      (globalPartners_nodup db uid delta gc cpx e)]
    by_cases hm : v ∈ globalPartners db uid delta gc cpx e
    · have hc : (globalPartners db uid delta gc cpx e).contains v = true := by
        simpa using hm
      rw [if_pos ⟨hm, hv1, hv2⟩]
      simp only [List.filter_cons, hc, if_pos, List.length_cons]
      push_cast
      ring
    · have hc : (globalPartners db uid delta gc cpx e).contains v = false := by
        simpa using hm
      rw [if_neg (fun hh => hm hh.1)]
      simp only [List.filter_cons, hc]
      simp

theorem dictLookup_uid_globalFold (db : DB) (uid delta : Int) (gc : List Str)
    (cpx : List Int) (userList : List Int) (edits : List EditRow) : ∀ d : Dict,
    dictLookup uid d = none →
    dictLookup uid (edits.foldl (fun d2 e => accumPartners userList uid d2
        (globalPartners db uid delta gc cpx e)) d) = none := by
  induction edits with
  | nil => intro d h; exact h
  | cons e rest ih =>
    intro d h
    rw [List.foldl_cons]
    exact ih _ (dictLookup_uid_accumPartners userList uid d _ h)

theorem dictLookup_uid_obsFold (db : DB) (uid : Int) (userList : List Int)
    (edits : List EditRow) : ∀ d : Dict, dictLookup uid d = none →
    dictLookup uid (edits.foldl (fun d e =>
      match getLastEditor db e.page_id e.edit_time with
      | some v => if v ≠ uid ∧ v ∈ userList then dictIncr v d else d
      | none => d) d) = none := by
  induction edits with
  | nil => intro d h; exact h
  | cons e rest ih =>
    intro d h
    rw [List.foldl_cons]
    apply ih
    cases hle : getLastEditor db e.page_id e.edit_time with
    | none => simpa [hle] using h
    | some v =>
      by_cases hc : v ≠ uid ∧ v ∈ userList
      · simp only [hle, if_pos hc]
        rw [dictLookup_dictIncr_ne v uid d (Ne.symm hc.1)]
        exact h
      · simp only [hle, if_neg hc]
        exact h

theorem dictLookup_uid_localLoop (db : DB) (uid : Int) (userList : List Int)
    (delta : Int) (utc ctc : List Str) (edits : List EditRow) : ∀ d : Dict,
    dictLookup uid d = none → ∀ d2 : Dict,
    getLocalCommLoop db uid userList delta utc ctc edits d = Except.ok d2 →
    dictLookup uid d2 = none := by
  induction edits with
  | nil =>
    intro d h d2 h2
    simp only [getLocalCommLoop, Except.ok.injEq] at h2
    rw [← h2]
    exact h
  | cons e rest ih =>
    intro d h d2 h2
    rw [getLocalCommLoop] at h2
    cases hp : localPartners db uid delta utc ctc e with
    | ok cps =>
      rw [hp] at h2
      exact ih _ (dictLookup_uid_accumPartners userList uid d _ h) d2 h2
    | error err =>
      rw [hp] at h2
      exact absurd h2 (by simp)

/- ----------------------------------------------------------------
   Claim C7: accumulation of edge weights in getGlobalComm
   ---------------------------------------------------------------- -/

/-- C7: the accumulated weight of the ordered pair from the focal user
to v equals the number of the focal user's edits whose qualifying
partner set contains v (summation across edits, no deduplication
across edits), while the partner set of any single edit is
duplicate-free, so v contributes at most once per edit however many
qualifying prior edits v made. -/
theorem C7_theorem :
    (∀ db : DB, ∀ uid : Int, ∀ userList : List Int,
      ∀ startTime endTime delta : Int, ∀ globalCats : List Str,
      ∀ complexPages : List Int, ∀ v : Int, v ≠ uid → v ∈ userList →
      dictGet0 v (getGlobalComm db uid userList startTime endTime delta
          globalCats complexPages)
        = (((getEdits db uid startTime endTime).filter (fun e =>
            (globalPartners db uid delta globalCats complexPages e).contains v)).length
            : Int))
    ∧ (∀ db : DB, ∀ uid delta : Int, ∀ globalCats : List Str,
        ∀ complexPages : List Int, ∀ e : EditRow,
        (globalPartners db uid delta globalCats complexPages e).Nodup) := by
  constructor
  · intro db uid userList startTime endTime delta globalCats complexPages v hv1 hv2
    rw [getGlobalComm,
      dictGet0_globalFold db uid delta globalCats complexPages userList v hv1 hv2 _ []]
    simp [dictGet0, dictLookup]
  · intro db uid delta globalCats complexPages e
    exact globalPartners_nodup db uid delta globalCats complexPages e

/-- C7 witness: the count formula evaluated for user 1 and partner 2
on a concrete database where user 1 edits page 1 twice. -/
theorem C7_witness :
    dictGet0 2 (getGlobalComm db7 1 [2] 0 100 10 [("g").data] [])
      = (((getEdits db7 1 0 100).filter (fun e =>
          (globalPartners db7 1 10 [("g").data] [] e).contains 2)).length : Int) :=
  C7_theorem.1 db7 1 [2] 0 100 10 [("g").data] [] 2 (by decide) (by decide)

/- ----------------------------------------------------------------
   Claim C9: no self ties
   ---------------------------------------------------------------- -/

/-- C9: the focal user never appears as a key of the dictionary
produced for them by getGlobalComm, getObservations or (when it
returns) getLocalComm; and any matrix cell whose row and column index
coincide and whose pair is absent from the dictionary renders as the
character 0, so the diagonal of the emitted matrices consists of 0
entries. -/
theorem C9_theorem :
    (∀ db : DB, ∀ uid : Int, ∀ userList : List Int,
      ∀ startTime endTime delta : Int, ∀ globalCats : List Str,
      ∀ complexPages : List Int,
      dictLookup uid (getGlobalComm db uid userList startTime endTime delta
        globalCats complexPages) = none)
    ∧ (∀ db : DB, ∀ uid startTime endTime : Int, ∀ userList : List Int,
      dictLookup uid (getObservations db uid startTime endTime userList) = none)
    ∧ (∀ db : DB, ∀ uid : Int, ∀ userList : List Int,
      ∀ startTime endTime delta : Int, ∀ utc ctc : List Str, ∀ d : Dict,
      getLocalComm db uid userList startTime endTime delta utc ctc = Except.ok d →
      dictLookup uid d = none)
    ∧ (∀ nd : NDict, ∀ cutoff : Int, ∀ dichotomize : Bool, ∀ i : Int,
      innerLookup nd i i = none → entryStr nd cutoff dichotomize i i = ['0']) := by
  refine ⟨?_, ?_, ?_, ?_⟩
  · intro db uid userList startTime endTime delta globalCats complexPages
    exact dictLookup_uid_globalFold db uid delta globalCats complexPages userList _ [] rfl
  · intro db uid startTime endTime userList
    exact dictLookup_uid_obsFold db uid userList _ [] rfl
  · intro db uid userList startTime endTime delta utc ctc d h
    exact dictLookup_uid_localLoop db uid userList delta utc ctc _ [] rfl d h
  · intro nd cutoff dichotomize i h
    unfold entryStr
    rw [h]

/-- C9 witness: the four parts evaluated on the concrete database db7
and a concrete dictionary whose diagonal pair is absent. -/
theorem C9_witness :
    dictLookup 1 (getGlobalComm db7 1 [2] 0 100 10 [("g").data] []) = none ∧
    dictLookup 1 (getObservations db7 1 0 100 [2]) = none ∧
    dictLookup 1 ([] : Dict) = none ∧
    entryStr [((1 : Int), [((2 : Int), (3 : Int))])] 1 true 1 1 = ['0'] :=
  ⟨C9_theorem.1 db7 1 [2] 0 100 10 [("g").data] [],
   C9_theorem.2.1 db7 1 0 100 [2],
   C9_theorem.2.2.1 db7 1 [2] 0 100 10 [] [] [] rfl,
   C9_theorem.2.2.2 [((1 : Int), [((2 : Int), (3 : Int))])] 1 true 1 (by decide)⟩

/- ----------------------------------------------------------------
   Claim C5: talk-page selection
   ---------------------------------------------------------------- -/

theorem wdictLookup_wdictAdd_self (p u : Str) (d : WDict) :
    wdictLookup p (wdictAdd p u d) = some ((wdictLookup p d).getD [] ++ [u]) := by
  induction d with
  | nil => simp [wdictAdd, wdictLookup]
  | cons q rest ih =>
    obtain ⟨q1, l⟩ := q
    by_cases hq : q1 = p
    · subst hq
      simp [wdictAdd, wdictLookup]
    · simp [wdictAdd, hq, wdictLookup, ih]

theorem wdictLookup_wdictAdd_ne (p q u : Str) (d : WDict) (h : q ≠ p) :
    wdictLookup p (wdictAdd q u d) = wdictLookup p d := by
  induction d with
  | nil => simp [wdictAdd, wdictLookup, h]
  | cons a rest ih =>
    obtain ⟨a1, l⟩ := a
    by_cases ha : a1 = q
    · subst ha
      simp [wdictAdd, wdictLookup, h]
    · by_cases hap : a1 = p
      · subst hap
        simp [wdictAdd, ha, wdictLookup]
      · simp [wdictAdd, ha, wdictLookup, hap, ih]

theorem makeWatchDict_fold (p : Str) (rows : List (Str × Str × Str)) :
    ∀ d : WDict,
    wdictLookup p (rows.foldl (fun d r =>
        if r.2.1 = ("106").data then wdictAdd r.2.2 r.1 d else d) d)
      = (match wdictLookup p d with
         | some l => some (l ++ watchAcc p rows)
         | none => if (watchAcc p rows).isEmpty then none else some (watchAcc p rows)) := by
  induction rows with
  | nil =>
    intro d
    cases h : wdictLookup p d <;> simp [watchAcc, h]
  | cons r rows2 ih =>
    intro d
    rw [List.foldl_cons]
    by_cases hns : r.2.1 = ("106").data
    · by_cases hp : r.2.2 = p
      · have hacc : watchAcc p (r :: rows2) = r.1 :: watchAcc p rows2 := by
          simp [watchAcc, List.filter_cons, hns, hp]
        rw [if_pos hns, hp, ih, hacc, wdictLookup_wdictAdd_self]
        cases h : wdictLookup p d with
        | some l => simp [h]
        | none => simp [h]
      · have hacc : watchAcc p (r :: rows2) = watchAcc p rows2 := by
          have : (r.2.2 == p) = false := beq_eq_false_iff_ne.2 hp
          simp [watchAcc, List.filter_cons, this]
        rw [if_pos hns, ih, hacc, wdictLookup_wdictAdd_ne p r.2.2 r.1 d hp]
    · have hacc : watchAcc p (r :: rows2) = watchAcc p rows2 := by
        have : (r.2.1 == ("106").data) = false := beq_eq_false_iff_ne.2 hns
        simp [watchAcc, List.filter_cons, this]
      rw [if_neg hns, ih, hacc]

/-- C5 counterexample: on a concrete watchlist holding one row with
the odd namespace string 107 and one with the even namespace string
106, makeWatchDict keeps exactly the namespace-106 page: the page with
the odd namespace is not treated as a talk page, and the selected
namespace 106 is even, contradicting classification by odd parity. -/
theorem C5_counterexample :
    makeWatchDict [((("u").data), (("107").data), (("q").data)),
                   ((("u").data), (("106").data), (("p").data))]
      = [((("p").data), [("u").data])] ∧
    (107 % 2 = 1) ∧ (106 % 2 = 0) := by
  exact ⟨by decide, by decide, by decide⟩

/-- C5 (amended): the code never consults namespace parity and never
raises on a non-numeric namespace: makeWatchDict keeps exactly the
rows whose namespace field equals the string 106 (string comparison,
total on every field value), recording for each page the watchers of
its kept rows in order; and the communication builders select pages by
membership of the page_category field in the caller-supplied category
lists, every other category contributing no partners. -/
theorem C5_theorem :
    (∀ rows : List (Str × Str × Str), ∀ p : Str,
      wdictLookup p (makeWatchDict rows)
        = (if (watchAcc p rows).isEmpty then none else some (watchAcc p rows)))
    ∧ (∀ db : DB, ∀ uid delta : Int, ∀ utc ctc : List Str, ∀ e : EditRow,
        e.page_category ∉ utc → e.page_category ∉ ctc →
        localPartners db uid delta utc ctc e = Except.ok []) := by
  constructor
  · intro rows p
    rw [makeWatchDict, makeWatchDict_fold p rows []]
    rfl
  · intro db uid delta utc ctc e h1 h2
    rw [localPartners, if_neg h1, if_neg h2]

/-- C5 witness: the characterization evaluated on the concrete
watchlist of the counterexample, and the category conjunct on a
concrete edit row whose category is in neither list. -/
theorem C5_witness :
    wdictLookup (("p").data)
        (makeWatchDict [((("u").data), (("107").data), (("q").data)),
                        ((("u").data), (("106").data), (("p").data))])
      = (if (watchAcc (("p").data)
              [((("u").data), (("107").data), (("q").data)),
               ((("u").data), (("106").data), (("p").data))]).isEmpty
         then none
         else some (watchAcc (("p").data)
              [((("u").data), (("107").data), (("q").data)),
               ((("u").data), (("106").data), (("p").data))])) ∧
    localPartners db2 1 1 [("a").data] [] rowC = Except.ok [] :=
  ⟨C5_theorem.1 _ _, C5_theorem.2 db2 1 1 [("a").data] [] rowC (by decide) (by decide)⟩

/- ----------------------------------------------------------------
   Claims C6 and C10: matrix shape and content
   ---------------------------------------------------------------- -/

theorem splitOnChar_ne (c : Char) (s : Str) (h : c ∉ s) : splitOnChar c s = [s] := by
  induction s with
  | nil => rfl
  | cons a rest ih =>
    have ha : a ≠ c := fun he => h (by simp [he])
    have hrest : c ∉ rest := fun hm => h (List.mem_cons_of_mem _ hm)
    simp [splitOnChar, ha, ih hrest]

theorem splitOnChar_append (c : Char) (s t : Str) (h : c ∉ s) :
    splitOnChar c (s ++ c :: t) = s :: splitOnChar c t := by
  induction s with
  | nil => simp [splitOnChar]
  | cons a rest ih =>
    have ha : a ≠ c := fun he => h (by simp [he])
    have hrest : c ∉ rest := fun hm => h (List.mem_cons_of_mem _ hm)
    simp [splitOnChar, ha, ih hrest]

theorem splitOnChar_rows (rows : List Str) (h : ∀ r ∈ rows, '\n' ∉ r) :
    splitOnChar '\n' ((rows.map (fun r => r ++ ['\n'])).flatten) = rows ++ [[]] := by
  induction rows with
  | nil => rfl
  | cons r rs ih =>
    have hr : '\n' ∉ r := h r (by simp)
    have hrs : ∀ x ∈ rs, '\n' ∉ x := fun x hx => h x (List.mem_cons_of_mem _ hx)
    rw [List.map_cons, List.flatten_cons]
    have hassoc : (r ++ ['\n']) ++ (rs.map (fun r => r ++ ['\n'])).flatten
        = r ++ '\n' :: (rs.map (fun r => r ++ ['\n'])).flatten := by simp
    rw [hassoc, splitOnChar_append '\n' r _ hr, ih hrs]
    rfl

theorem foldl_sp_acc (l : List Str) : ∀ acc : Str,
    l.foldl (fun a i => a ++ i ++ [' ']) acc
      = acc ++ l.foldl (fun a i => a ++ i ++ [' ']) [] := by
  induction l with
  | nil => intro acc; simp
  | cons t ts ih =>
    intro acc
    rw [List.foldl_cons, List.foldl_cons, ih (acc ++ t ++ [' '])]
    conv_rhs => rw [ih (([] : Str) ++ t ++ [' '])]
    simp

theorem rowConcat_cons (t : Str) (ts : List Str) :
    rowConcat (t :: ts) = (t ++ [' ']) ++ rowConcat ts := by
  show (t :: ts).foldl (fun a i => a ++ i ++ [' ']) [] = _
  rw [List.foldl_cons, foldl_sp_acc]
  simp [rowConcat]

theorem rowConcat_eq_spaceSep (l : List Str) (h : l ≠ []) :
    rowConcat l = spaceSep l ++ [' '] := by
  induction l with
  | nil => exact absurd rfl h
  | cons t ts ih =>
    cases ts with
    | nil => simp [rowConcat, spaceSep]
    | cons t2 ts2 =>
      rw [rowConcat_cons, ih (by simp)]
      rw [show spaceSep (t :: t2 :: ts2) = t ++ ' ' :: spaceSep (t2 :: ts2) from rfl]
      simp

theorem rowString_eq (l : List Str) (h : l ≠ []) :
    rowString l = spaceSep l ++ ['\n'] := by
  rw [rowString, rowConcat_eq_spaceSep l h, List.dropLast_concat]

theorem listsToMatrix_acc (lists : List (List Str)) : ∀ acc : Str,
    lists.foldl (fun a l => a ++ rowString l) acc
      = acc ++ (lists.map rowString).flatten := by
  induction lists with
  | nil => intro acc; simp
  | cons l ls ih =>
    intro acc
    rw [List.foldl_cons, ih]
    simp

theorem listsToMatrix_eq_join (lists : List (List Str)) :
    listsToMatrix lists = (lists.map rowString).flatten := by
  show lists.foldl (fun a l => a ++ rowString l) [] = _
  rw [listsToMatrix_acc]
  rfl

theorem entryStr_dicho (nd : NDict) (cutoff : Int) (i j : Int) :
    entryStr nd cutoff true i j = ['1'] ∨ entryStr nd cutoff true i j = ['0'] := by
  unfold entryStr
  cases innerLookup nd i j with
  | none => right; rfl
  | some v =>
    by_cases h : cutoff ≤ v
    · left; simp [h]
    · right; simp [h]

theorem splitOnChar_spaceSep (toks : List Str) (h : ∀ t ∈ toks, ' ' ∉ t)
    (hne : toks ≠ []) : splitOnChar ' ' (spaceSep toks) = toks := by
  induction toks with
  | nil => exact absurd rfl hne
  | cons t ts ih =>
    cases ts with
    | nil => exact splitOnChar_ne ' ' t (h t (by simp))
    | cons t2 ts2 =>
      rw [show spaceSep (t :: t2 :: ts2) = t ++ ' ' :: spaceSep (t2 :: ts2) from rfl]
      rw [splitOnChar_append ' ' t _ (h t (by simp))]
      rw [ih (fun x hx => h x (List.mem_cons_of_mem _ hx)) (by simp)]

theorem newline_not_mem_spaceSep (toks : List Str) (h : ∀ t ∈ toks, '\n' ∉ t) :
    '\n' ∉ spaceSep toks := by
  induction toks with
  | nil => simp [spaceSep]
  | cons t ts ih =>
    cases ts with
    | nil => exact h t (by simp)
    | cons t2 ts2 =>
      rw [show spaceSep (t :: t2 :: ts2) = t ++ ' ' :: spaceSep (t2 :: ts2) from rfl]
      intro hm
      rcases List.mem_append.1 hm with hm | hm
      · exact h t (by simp) hm
      · rcases List.mem_cons.1 hm with hm | hm
        · exact absurd hm (by decide)
        · exact ih (fun x hx => h x (List.mem_cons_of_mem _ hx)) hm

theorem entryStr_true_eq (nd : NDict) (cutoff i j : Int) :
    entryStr nd cutoff true i j
      = (match innerLookup nd i j with
         | some v => if cutoff ≤ v then (['1'] : Str) else ['0']
         | none => ['0']) := by
  unfold entryStr
  cases innerLookup nd i j with
  | none => rfl
  | some v => by_cases h : cutoff ≤ v <;> simp [h]

theorem entryStr_no_space (nd : NDict) (cutoff : Int) (i j : Int) :
    ' ' ∉ entryStr nd cutoff true i j := by
  rcases entryStr_dicho nd cutoff i j with h | h <;> rw [h] <;> decide

theorem entryStr_no_newline (nd : NDict) (cutoff : Int) (i j : Int) :
    '\n' ∉ entryStr nd cutoff true i j := by
  rcases entryStr_dicho nd cutoff i j with h | h <;> rw [h] <;> decide

/-- C6 counterexample: the dictionary nd6 has the single source key 1
and records an edge toward target 2, yet without a supplied node list
the emitted matrix is the one-by-one matrix over the sorted keys
alone: the target 2 is not part of the vertex set, contradicting the
claim that the vertex set is all distinct endpoints. -/
theorem C6_counterexample :
    networkDictToMatrix nd6 [] 1 true = ['1', '\n'] ∧
    sortedKeys nd6 = [1] ∧
    innerLookup nd6 1 2 = some 5 := by
  exact ⟨by decide, by decide, by decide⟩

/-- C6 (amended): when no node list is supplied (the empty, falsy
list), the matrix is built over the sorted distinct top-level keys of
the dictionary (the sources); targets that never appear as sources are
omitted.  The derived vertex list is sorted in the ascending order of
the vertex identities and holds exactly the dictionary's keys. -/
theorem C6_theorem :
    (∀ nd : NDict, ∀ cutoff : Int, ∀ dichotomize : Bool,
      networkDictToMatrix nd [] cutoff dichotomize
        = networkDictToMatrix nd (sortedKeys nd) cutoff dichotomize)
    ∧ (∀ nd : NDict, List.Sorted (fun a b : Int => a ≤ b) (sortedKeys nd))
    ∧ (∀ nd : NDict, ∀ x : Int, x ∈ sortedKeys nd ↔ x ∈ nd.map (fun p => p.1)) := by
  refine ⟨?_, ?_, ?_⟩
  · intro nd cutoff dichotomize
    by_cases hk : sortedKeys nd = [] <;> simp [networkDictToMatrix, hk]
  · intro nd
    exact List.sorted_insertionSort _ _
  · intro nd x
    rw [sortedKeys]
    constructor
    · intro hx
      exact List.mem_dedup.1 ((List.perm_insertionSort _ _).subset hx)
    · intro hx
      exact (List.perm_insertionSort _ _).mem_iff.2 (List.mem_dedup.2 hx)

/-- C10 counterexample: with the explicitly supplied empty node list
(n = 0) the claim demands a zero-by-zero matrix, i.e. the empty
string; but the empty list is falsy in Python, so the code falls back
to the dictionary keys and emits a one-by-one matrix instead. -/
theorem C10_counterexample :
    networkDictToMatrix [((1 : Int), [((2 : Int), (1 : Int))])] [] 1 true = ['0', '\n'] ∧
    (['0', '\n'] : Str) ≠ [] := by
  exact ⟨by decide, by decide⟩

/-- C10 (amended): for every nonempty node list L of length n and
integer cutoff c, dichotomized matrix conversion yields n
newline-terminated rows of n space-separated entries, where the entry
of row i and column j is the character 1 exactly when i is a key of
the dictionary, j a key of its inner dictionary, and the stored count
is at least c, and the character 0 otherwise (an empty node list
instead falls back to the dictionary keys, see C6). -/
theorem C10_theorem (nd : NDict) (L : List Int) (cutoff : Int) (h : L ≠ []) :
    (splitOnChar '\n' (networkDictToMatrix nd L cutoff true)).map (splitOnChar ' ')
      = (L.map (fun i => L.map (fun j =>
          (match innerLookup nd i j with
           | some v => if cutoff ≤ v then (['1'] : Str) else ['0']
           | none => ['0'])))) ++ [[[]]] := by
  have hne : ∀ i : Int, L.map (fun j => entryStr nd cutoff true i j) ≠ [] := by
    intro i he
    exact h (by simpa using he)
  have hmat : networkDictToMatrix nd L cutoff true
      = ((L.map (fun i => spaceSep (L.map (fun j => entryStr nd cutoff true i j)))).map
          (fun r => r ++ ['\n'])).flatten := by
    simp only [networkDictToMatrix]
    rw [if_neg h, listsToMatrix_eq_join]
    congr 1
    rw [List.map_map, List.map_map]
    apply List.map_congr_left
    intro i _
    simp only [Function.comp_apply]
    exact rowString_eq _ (hne i)
  have hnl : ∀ r ∈ L.map (fun i => spaceSep (L.map (fun j => entryStr nd cutoff true i j))),
      '\n' ∉ r := by
    intro r hr
    obtain ⟨i, hi, rfl⟩ := List.mem_map.1 hr
    apply newline_not_mem_spaceSep
    intro t ht
    obtain ⟨j, hj, rfl⟩ := List.mem_map.1 ht
    exact entryStr_no_newline nd cutoff i j
  rw [hmat, splitOnChar_rows _ hnl, List.map_append]
  congr 1
  · rw [List.map_map]
    apply List.map_congr_left
    intro i _
    simp only [Function.comp_apply]
    have hsp : ∀ t ∈ L.map (fun j => entryStr nd cutoff true i j), ' ' ∉ t := by
      intro t ht
      obtain ⟨j, hj, rfl⟩ := List.mem_map.1 ht
      exact entryStr_no_space nd cutoff i j
    rw [splitOnChar_spaceSep _ hsp (hne i)]
    apply List.map_congr_left
    intro j _
    exact entryStr_true_eq nd cutoff i j

/-- C10 witness: the amended theorem evaluated on a concrete
dictionary and the concrete node list of users 1 and 2. -/
theorem C10_witness :
    (splitOnChar '\n' (networkDictToMatrix [((1 : Int), [((2 : Int), (2 : Int))])]
        [1, 2] 1 true)).map (splitOnChar ' ')
      = (([1, 2] : List Int).map (fun i => ([1, 2] : List Int).map (fun j =>
          (match innerLookup [((1 : Int), [((2 : Int), (2 : Int))])] i j with
           | some v => if (1 : Int) ≤ v then (['1'] : Str) else ['0']
           | none => ['0'])))) ++ [[[]]] :=
  C10_theorem [((1 : Int), [((2 : Int), (2 : Int))])] [1, 2] 1 (by decide)
